import Mathlib

/-!
Shallow embedding of the tibbiportal.az doctor scraper (`scrape_doctors.py`).

Python dictionaries keyed by the scraper's fixed field names are modelled as
association lists over an enumerated `Field` type, with python's in-place
`d[k] = v` (replace the existing binding, else append) and `d.update(u)`
semantics.  Fetched HTML pages are modelled by the structure the parser
actually reads from them; network fetch results are `Option` values
(`none` models `get_page` returning `None` after exhausting retries).
The retry loop of `get_page` is modelled over an explicit list of per-attempt
outcomes; the shared `asyncio.Semaphore` is modelled as a labelled transition
system over per-task states; the batch loop of `scrape_all_doctors` is
modelled as the event trace it produces.
-/

namespace TibbiPortal

/-- Fixed set of dictionary keys used by the scraper (the `fieldnames` of
`save_to_csv` plus nothing else: every key written anywhere in the code is
one of these). -/
inductive Field
  | name
  | specialty
  | specialty_preview
  | experience
  | phone
  | work_hours
  | workplace
  | workplace_url
  | likes
  | url
  deriving DecidableEq

/-- Python dict keyed by `Field`, as an insertion-ordered association list. -/
abbrev Dict := List (Field × String)

/-- Lookup `d[k]` (first binding wins; our dicts keep keys unique). -/
def dict_lookup : Dict → Field → Option String
  | [], _ => none
  | (k', v) :: rest, k => if k' = k then some v else dict_lookup rest k

/-- Python `d[k] = v`: replace the existing binding in place, else append. -/
def dict_set : Dict → Field → String → Dict
  | [], k, v => [(k, v)]
  | (k', v') :: rest, k, v =>
      if k' = k then (k, v) :: rest else (k', v') :: dict_set rest k v

/-- Python `d.update(u)`: assign every binding of `u` into `d`, left to right. -/
def dict_update (d : Dict) (u : Dict) : Dict :=
  u.foldl (fun acc kv => dict_set acc kv.1 kv.2) d

/-- Keys of a dict, in order. -/
def dict_keys (d : Dict) : List Field := d.map Prod.fst

/-- Site base URL (`self.base_url`). -/
def base_url : String := "https://tibbiportal.az"

/-- One `.item` element of a listing page, as read by
`extract_doctor_links_from_listing`: the `href` of the first anchor with an
`href` attribute (if any), the text of the first `h3` (if any), and the text
of the first `p` (if any). -/
structure ListingItem where
  link : Option String
  name : Option String
  specialty : Option String

/-- A fetched listing page: the elements selected by
`soup.select('section#doctors .item')`. -/
structure ListingDoc where
  items : List ListingItem

/-- URL resolution on line 73: keep an `href` already starting with `"http"`
verbatim, otherwise prepend `base_url`. -/
def resolve_url (href : String) : String :=
  if href.startsWith "http" then href else base_url ++ href

/-- The stub dict built in the loop body of
`extract_doctor_links_from_listing` (lines 72-76). -/
def mk_stub (href nm : String) (sp : Option String) : Dict :=
  [(Field.url, resolve_url href),
   (Field.name, nm.trim),
   (Field.specialty_preview, (sp.map String.trim).getD "")]

/-- Per-item emission decision of the listing parser, as a partial map:
an item yields a stub exactly when both its link and its name are present. -/
def emit_item (item : ListingItem) : Option Dict :=
  match item.link, item.name with
  | some href, some nm => some (mk_stub href nm item.specialty)
  | _, _ => none

/-- Body of the `for item in doctor_items` loop (lines 65-80): append a stub
when both the link and the name element are present, else leave the list
unchanged. -/
def listing_step (acc : List Dict) (item : ListingItem) : List Dict :=
  match item.link, item.name with
  | some href, some nm => acc ++ [mk_stub href nm item.specialty]
  | _, _ => acc

/-- `extract_doctor_links_from_listing` (lines 53-82), given the result of
its `get_page` call: `None` yields `[]`; otherwise each selected item with
both a link and a name appends a stub, and other items are skipped. -/
def extract_doctor_links_from_listing (fetched : Option ListingDoc) : List Dict :=
  match fetched with
  | none => []
  | some soup => soup.items.foldl listing_step []

/-- An anchor inside a detail-page list item: its text and its optional
`href` attribute (`workplace_link.get('href', '')` defaults to `""`). -/
structure Anchor where
  text : String
  href : Option String

/-- One `li` of a detail page: the joined class string of its first `i`
element (if an `i` is present), the text of its first `span` (if present),
and its first anchor (if present). -/
structure DetailLi where
  icon : Option String
  span : Option String
  anchor : Option Anchor

/-- A fetched detail page, as read by `extract_doctor_details`: the
`.widget-title` text (via `get_text(strip=True)`), the `.rateItemCount`
text, and the `section.item-detail ul li` elements. -/
structure DetailDoc where
  title : Option String
  like_count : Option String
  list_items : List DetailLi

/-- Whether the pattern (first argument) occurs at the head of the text. -/
def heads_with : List Char → List Char → Bool
  | [], _ => true
  | _ :: _, [] => false
  | p :: ps, c :: cs => p == c && heads_with ps cs

/-- Whether the pattern (first argument) occurs anywhere in the text. -/
def has_sub (pat : List Char) : List Char → Bool
  | [] => pat.isEmpty
  | c :: cs => heads_with pat (c :: cs) || has_sub pat cs

/-- Python substring test `pat in s`. -/
def contains_sub (s pat : String) : Bool :=
  has_sub pat.data s.data

/-- The body of the `for li in list_items` loop of `extract_doctor_details`
(lines 111-137): skip the item when its icon or its span is missing,
otherwise classify it by the icon class and assign the matching field. -/
def classify_li (details : Dict) (li : DetailLi) : Dict :=
  match li.icon, li.span with
  | some icon_class, some span_text =>
      let text := span_text.trim
      if contains_sub icon_class "fa-user-md" then
        dict_set details Field.specialty text
      else if contains_sub icon_class "fa-calendar" then
        dict_set details Field.experience text
      else if contains_sub icon_class "fa-phone" || contains_sub icon_class "fa-mobile" then
        dict_set details Field.phone text
      else if contains_sub icon_class "fa-clock-o" then
        dict_set details Field.work_hours text
      else if contains_sub icon_class "fa-map-marker" then
        match li.anchor with
        | some a =>
            dict_set (dict_set details Field.workplace a.text.trim)
              Field.workplace_url (a.href.getD "")
        | none => dict_set details Field.workplace text
      else details
  | _, _ => details

/-- Condition under which the `elif 'fa-map-marker' in icon_class` branch of
`classify_li` is reached: the icon class mentions the map-marker icon and
none of the icon keys tested earlier in the `if/elif` chain. -/
def map_marker_case (icon_class : String) : Bool :=
  !contains_sub icon_class "fa-user-md" && !contains_sub icon_class "fa-calendar" &&
  !contains_sub icon_class "fa-phone" && !contains_sub icon_class "fa-mobile" &&
  !contains_sub icon_class "fa-clock-o" && contains_sub icon_class "fa-map-marker"

/-- `extract_doctor_details` (lines 84-142), given the result of its
`get_page` call: on fetch failure the dict holds only `'url'`; on success it
starts from `{'url': doctor_url}`, optionally adds the name (leading
non-digit run of the title text, when nonempty) and the like count, then
folds the list-item classifier over the page's list items. -/
def extract_doctor_details (doctor_url : String) (fetched : Option DetailDoc) : Dict :=
  match fetched with
  | none => [(Field.url, doctor_url)]
  | some soup =>
      let d0 : Dict := [(Field.url, doctor_url)]
      let d1 :=
        match soup.title with
        | some title_text =>
            let nm := title_text.takeWhile (fun c => !c.isDigit)
            if nm.isEmpty then d0 else dict_set d0 Field.name nm.trim
        | none => d0
      let d2 :=
        match soup.like_count with
        | some lc => dict_set d1 Field.likes lc.trim
        | none => d1
      soup.list_items.foldl classify_li d2

/-- Per-stub step of `scrape_page` (lines 157-166): fetch the stub's detail
page (the `doctor['url']` access always finds the key on stubs built by the
listing parser; a missing key would be a `KeyError`, modelled as `""`),
merge with `doctor.update(details)`, and append the merged record. -/
def scrape_step (detail_fetch : String → Option DetailDoc)
    (a : List Dict) (doctor : Dict) : List Dict :=
  let durl := (dict_lookup doctor Field.url).getD ""
  let details := extract_doctor_details durl (detail_fetch durl)
  a ++ [dict_update doctor details]

/-- Accumulator effect of `scrape_page` (lines 144-168), see `scrape_step`
for the per-stub merge-and-append. -/
def scrape_page (listing_fetch : Option ListingDoc)
    (detail_fetch : String → Option DetailDoc) (acc : List Dict) : List Dict :=
  (extract_doctor_links_from_listing listing_fetch).foldl (scrape_step detail_fetch) acc

/-- Retry loop of `get_page` (lines 39-51) over an explicit list of
per-attempt outcomes (entry `i` is `some doc` when attempt `i` would succeed,
`none` when it would raise), of length `max_retries`.  Returns the result
together with the number of attempts performed and the number of 2-second
backoff sleeps executed: a successful attempt returns at once; a failed
attempt sleeps and continues when it is not the last, and returns `none`
without sleeping when it is the last.  The function is total: exhaustion
yields the explicit failure value, never an exception. -/
def get_page {α : Type} : List (Option α) → Option α × Nat × Nat
  | [] => (none, 0, 0)
  | some doc :: _ => (some doc, 1, 0)
  | none :: [] => (none, 1, 0)
  | none :: a :: rest =>
      let t := get_page (a :: rest)
      (t.1, t.2.1 + 1, t.2.2 + 1)

/-- State of one `get_page` invocation with respect to the shared semaphore:
not yet admitted, holding the gate (its retry loop runs only here), or
finished (gate released when the `async with` block exits). -/
inductive TaskState
  | idle
  | holding
  | released
  deriving DecidableEq

/-- Whether a task currently holds the admission gate. -/
def is_holding : TaskState → Bool
  | .holding => true
  | _ => false

/-- Number of tasks currently holding the admission gate. -/
def holders (ts : List TaskState) : Nat := ts.countP is_holding

/-- Interleaving semantics of `async with self.semaphore` around the retry
loop of `get_page`, for an arbitrary collection of concurrently scheduled
`get_page` invocations (any batch size and page range yields some such
collection).  A task may acquire only while fewer than `max_concurrent`
tasks hold the gate; network attempts are enabled only for a task that holds
the gate; release happens when the retry loop ends. -/
inductive SemStep (max_concurrent : Nat) : List TaskState → List TaskState → Prop
  | acquire (ts : List TaskState) (i : Nat) (hi : ts[i]? = some TaskState.idle)
      (hgate : holders ts < max_concurrent) :
      SemStep max_concurrent ts (ts.set i TaskState.holding)
  | fetch_attempt (ts : List TaskState) (i : Nat) (hi : ts[i]? = some TaskState.holding) :
      SemStep max_concurrent ts ts
  | release (ts : List TaskState) (i : Nat) (hi : ts[i]? = some TaskState.holding) :
      SemStep max_concurrent ts (ts.set i TaskState.released)

/-- Python `range(start, stop, step)` for a positive step, as used by the
batch loop `range(start_page, end_page + 1, batch_size)`. -/
def py_range (stop step : Nat) (start : Nat) : List Nat :=
  if _h : 0 < step ∧ start < stop then start :: py_range stop step (start + step)
  else []
termination_by stop - start
decreasing_by
  omega

/-- The pages of one batch (lines 188-189): `batch_end` is
`min(batch_start + batch_size - 1, end_page)` and the batch is
`range(batch_start, batch_end + 1)`. -/
def batch_pages (end_page batch_size batch_start : Nat) : List Nat :=
  List.range' batch_start (min (batch_start + batch_size - 1) end_page + 1 - batch_start)

/-- The batches processed by `scrape_all_doctors` (lines 187-206), in order. -/
def batches (start_page end_page batch_size : Nat) : List (List Nat) :=
  (py_range (end_page + 1) batch_size start_page).map (batch_pages end_page batch_size)

/-- Observable orchestrator events: running one batch to completion
(`asyncio.gather` joins every task of the batch before the loop continues)
and the fixed 1-second inter-batch `asyncio.sleep(1)`. -/
inductive OrchEvent
  | run_batch (pages : List Nat)
  | pause
  deriving DecidableEq

/-- Event trace of the batch loop of `scrape_all_doctors`: for each
`batch_start` of the range, gather the batch's page tasks, then pause. -/
def scrape_all_doctors (start_page end_page batch_size : Nat) : List OrchEvent :=
  (py_range (end_page + 1) batch_size start_page).foldl
    (fun tr batch_start =>
      tr ++ [OrchEvent.run_batch (batch_pages end_page batch_size batch_start), OrchEvent.pause])
    []

/-- The CSV column name of each field. -/
def field_name : Field → String
  | .name => "name"
  | .specialty => "specialty"
  | .specialty_preview => "specialty_preview"
  | .experience => "experience"
  | .phone => "phone"
  | .work_hours => "work_hours"
  | .workplace => "workplace"
  | .workplace_url => "workplace_url"
  | .likes => "likes"
  | .url => "url"

/-- The `fieldnames` list of `save_to_csv` (lines 223-234), in order. -/
def fieldnames : List Field :=
  [Field.name, Field.specialty, Field.specialty_preview, Field.experience, Field.phone,
   Field.work_hours, Field.workplace, Field.workplace_url, Field.likes, Field.url]

/-- One `DictWriter` row: recognized fields in `fieldnames` order, a missing
field written as the empty string (`restval`), extra keys impossible here
and in any case ignored (`extrasaction='ignore'`). -/
def csv_row (d : Dict) : List String :=
  fieldnames.map (fun f => (dict_lookup d f).getD "")

/-- `save_to_csv` (lines 216-246): with no data it returns at once without
touching the file system (`none` = no file created or truncated); otherwise
it writes the header row followed by one row per record, in order. -/
def save_to_csv (data : List Dict) : Option (List (List String)) :=
  if data.isEmpty then none
  else some (fieldnames.map field_name :: data.map csv_row)

/-- How the crawl inside `main`'s `try` block ends: normal completion,
`KeyboardInterrupt`, or any other unhandled exception. -/
inductive RunOutcome
  | normal
  | keyboard_interrupt
  | fault
  deriving DecidableEq

/-- The `try/except` structure of `main` (lines 266-284), given the
accumulator contents at the moment the outcome occurs: which file gets
written with which rows (`none` when `save_to_csv` declines to write), and
whether the exception is re-raised afterwards (`raise` on line 284). -/
def main_handler (acc : List Dict) (o : RunOutcome) :
    Option (String × List (List String)) × Bool :=
  match o with
  | .normal => ((save_to_csv acc).map (fun rows => ("doctors_data_complete.csv", rows)), false)
  | .keyboard_interrupt =>
      ((save_to_csv acc).map (fun rows => ("doctors_data_interrupted.csv", rows)), false)
  | .fault => ((save_to_csv acc).map (fun rows => ("doctors_data_error.csv", rows)), true)

/-- Unfolding lemma: keys of the empty dict. -/
theorem dict_keys_nil : dict_keys [] = [] := rfl

/-- Unfolding lemma: keys of a nonempty dict. -/
theorem dict_keys_cons (kv : Field × String) (rest : Dict) :
    dict_keys (kv :: rest) = kv.1 :: dict_keys rest := rfl

/-- Unfolding lemma: `dict_update` against the empty update. -/
theorem dict_update_nil (d : Dict) : dict_update d [] = d := rfl

/-- Unfolding lemma: `dict_update` assigns bindings left to right. -/
theorem dict_update_cons (d : Dict) (kv : Field × String) (rest : Dict) :
    dict_update d (kv :: rest) = dict_update (dict_set d kv.1 kv.2) rest := rfl

/-- Assigning a key makes lookup of that key return the new value. -/
theorem dict_lookup_set_self (d : Dict) (k : Field) (v : String) :
    dict_lookup (dict_set d k v) k = some v := by
  induction d with
  | nil => simp [dict_set, dict_lookup]
  | cons kv rest ih =>
    obtain ⟨k1, v1⟩ := kv
    by_cases hk : k1 = k
    · simp [dict_set, hk, dict_lookup]
    · simp [dict_set, hk, dict_lookup, ih]

/-- Assigning a key leaves lookup of every other key unchanged. -/
theorem dict_lookup_set_ne (d : Dict) {k k' : Field} (v : String) (h : k' ≠ k) :
    dict_lookup (dict_set d k v) k' = dict_lookup d k' := by
  induction d with
  | nil => simp [dict_set, dict_lookup, Ne.symm h]
  | cons kv rest ih =>
    obtain ⟨k1, v1⟩ := kv
    by_cases hk : k1 = k
    · subst hk
      simp [dict_set, dict_lookup, Ne.symm h]
    · simp [dict_set, hk, dict_lookup, ih]

/-- Keys after a python-style assignment: unchanged when the key was already
bound, otherwise the new key is appended. -/
theorem dict_keys_set (d : Dict) (k : Field) (v : String) :
    dict_keys (dict_set d k v)
      = if k ∈ dict_keys d then dict_keys d else dict_keys d ++ [k] := by
  induction d with
  | nil => simp [dict_set, dict_keys]
  | cons kv rest ih =>
    obtain ⟨k1, v1⟩ := kv
    by_cases hk : k1 = k
    · subst hk
      simp [dict_set, dict_keys_cons]
    · by_cases hmem : k ∈ dict_keys rest
      · simp [dict_set, hk, dict_keys_cons, ih, hmem, List.mem_cons, Ne.symm hk]
      · simp [dict_set, hk, dict_keys_cons, ih, hmem, List.mem_cons, Ne.symm hk]

/-- Python-style assignment preserves uniqueness of keys. -/
theorem nodup_dict_keys_set (d : Dict) (k : Field) (v : String)
    (h : (dict_keys d).Nodup) : (dict_keys (dict_set d k v)).Nodup := by
  rw [dict_keys_set]
  by_cases hmem : k ∈ dict_keys d
  · simpa [hmem] using h
  · rw [if_neg hmem, List.nodup_append]
    exact ⟨h, List.nodup_singleton k,
      fun a ha hak => hmem (List.mem_singleton.mp hak ▸ ha)⟩

/-- Lookup of a key that is not among the keys fails. -/
theorem dict_lookup_eq_none (d : Dict) (k : Field) (h : k ∉ dict_keys d) :
    dict_lookup d k = none := by
  induction d with
  | nil => rfl
  | cons kv rest ih =>
    obtain ⟨k1, v1⟩ := kv
    rw [dict_keys_cons] at h
    simp only [List.mem_cons, not_or] at h
    simp [dict_lookup, Ne.symm h.1, ih h.2]

/-- A key absent from the update keeps its old value across `dict_update`. -/
theorem dict_lookup_update_of_none (u : Dict) :
    ∀ (d : Dict) (k : Field), dict_lookup u k = none →
      dict_lookup (dict_update d u) k = dict_lookup d k := by
  induction u with
  | nil => intro d k _; rfl
  | cons kv rest ih =>
    intro d k h
    obtain ⟨k1, v1⟩ := kv
    rw [dict_lookup] at h
    by_cases hk : k1 = k
    · rw [if_pos hk] at h
      exact absurd h (by simp)
    · rw [if_neg hk] at h
      rw [dict_update_cons, ih _ _ h, dict_lookup_set_ne _ _ (fun hh => hk hh.symm)]

/-- A key bound in a duplicate-free update takes the update's value across
`dict_update`. -/
theorem dict_lookup_update_of_some (u : Dict) :
    ∀ (d : Dict) (k : Field) (v : String), (dict_keys u).Nodup →
      dict_lookup u k = some v → dict_lookup (dict_update d u) k = some v := by
  induction u with
  | nil => intro d k v _ h; exact absurd h (by simp [dict_lookup])
  | cons kv rest ih =>
    intro d k v hn h
    obtain ⟨k1, v1⟩ := kv
    rw [dict_keys_cons] at hn
    rw [dict_lookup] at h
    by_cases hk : k1 = k
    · subst hk
      rw [if_pos rfl] at h
      have hrest : dict_lookup rest k1 = none :=
        dict_lookup_eq_none rest k1 (List.nodup_cons.mp hn).1
      rw [dict_update_cons, dict_lookup_update_of_none rest _ _ hrest,
        dict_lookup_set_self]
      exact h
    · rw [if_neg hk] at h
      rw [dict_update_cons]
      exact ih _ _ _ (List.nodup_cons.mp hn).2 h

/-- The list-item classifier never touches the `url` binding. -/
theorem lookup_url_classify_li (d : Dict) (li : DetailLi) :
    dict_lookup (classify_li d li) Field.url = dict_lookup d Field.url := by
  obtain ⟨icon, span, anchor⟩ := li
  cases icon with
  | none => cases span <;> rfl
  | some ic =>
    cases span with
    | none => rfl
    | some sp =>
      cases anchor with
      | none =>
        simp only [classify_li]
        split_ifs <;> simp [dict_lookup_set_ne _ _ (by decide : Field.url ≠ Field.specialty),
          dict_lookup_set_ne _ _ (by decide : Field.url ≠ Field.experience),
          dict_lookup_set_ne _ _ (by decide : Field.url ≠ Field.phone),
          dict_lookup_set_ne _ _ (by decide : Field.url ≠ Field.work_hours),
          dict_lookup_set_ne _ _ (by decide : Field.url ≠ Field.workplace)]
      | some a =>
        simp only [classify_li]
        split_ifs <;> simp [dict_lookup_set_ne _ _ (by decide : Field.url ≠ Field.specialty),
          dict_lookup_set_ne _ _ (by decide : Field.url ≠ Field.experience),
          dict_lookup_set_ne _ _ (by decide : Field.url ≠ Field.phone),
          dict_lookup_set_ne _ _ (by decide : Field.url ≠ Field.work_hours),
          dict_lookup_set_ne _ _ (by decide : Field.url ≠ Field.workplace),
          dict_lookup_set_ne _ _ (by decide : Field.url ≠ Field.workplace_url)]

/-- Folding the list-item classifier never touches the `url` binding. -/
theorem lookup_url_foldl_classify (lis : List DetailLi) :
    ∀ d : Dict, dict_lookup (lis.foldl classify_li d) Field.url = dict_lookup d Field.url := by
  induction lis with
  | nil => intro d; rfl
  | cons li rest ih =>
    intro d
    rw [List.foldl_cons, ih, lookup_url_classify_li]

/-- The list-item classifier preserves uniqueness of keys. -/
theorem nodup_keys_classify_li (d : Dict) (li : DetailLi)
    (h : (dict_keys d).Nodup) : (dict_keys (classify_li d li)).Nodup := by
  obtain ⟨icon, span, anchor⟩ := li
  cases icon with
  | none => cases span <;> exact h
  | some ic =>
    cases span with
    | none => exact h
    | some sp =>
      cases anchor with
      | none =>
        simp only [classify_li]
        split_ifs <;> first
          | exact h
          | exact nodup_dict_keys_set _ _ _ h
      | some a =>
        simp only [classify_li]
        split_ifs <;> first
          | exact h
          | exact nodup_dict_keys_set _ _ _ h
          | exact nodup_dict_keys_set _ _ _ (nodup_dict_keys_set _ _ _ h)

/-- Folding the list-item classifier preserves uniqueness of keys. -/
theorem nodup_keys_foldl_classify (lis : List DetailLi) :
    ∀ d : Dict, (dict_keys d).Nodup → (dict_keys (lis.foldl classify_li d)).Nodup := by
  induction lis with
  | nil => intro d h; exact h
  | cons li rest ih =>
    intro d h
    rw [List.foldl_cons]
    exact ih _ (nodup_keys_classify_li d li h)

/-- The dict produced by `extract_doctor_details` always binds `url` to the
requested URL, on fetch success and failure alike. -/
theorem lookup_url_extract_doctor_details (u : String) (f : Option DetailDoc) :
    dict_lookup (extract_doctor_details u f) Field.url = some u := by
  cases f with
  | none => rfl
  | some soup =>
    simp only [extract_doctor_details]
    rw [lookup_url_foldl_classify]
    have hbase : dict_lookup [(Field.url, u)] Field.url = some u := by
      simp [dict_lookup]
    cases soup.title with
    | none =>
      cases soup.like_count with
      | none => exact hbase
      | some lc =>
        dsimp only
        rw [dict_lookup_set_ne _ _ (by decide : Field.url ≠ Field.likes)]
        exact hbase
    | some t =>
      cases soup.like_count with
      | none =>
        dsimp only
        split_ifs <;>
          simp [hbase, dict_lookup_set_ne _ _ (by decide : Field.url ≠ Field.name)]
      | some lc =>
        dsimp only
        rw [dict_lookup_set_ne _ _ (by decide : Field.url ≠ Field.likes)]
        split_ifs <;>
          simp [hbase, dict_lookup_set_ne _ _ (by decide : Field.url ≠ Field.name)]

/-- The dict produced by `extract_doctor_details` has duplicate-free keys. -/
theorem nodup_keys_extract_doctor_details (u : String) (f : Option DetailDoc) :
    (dict_keys (extract_doctor_details u f)).Nodup := by
  cases f with
  | none => simp [extract_doctor_details, dict_keys]
  | some soup =>
    simp only [extract_doctor_details]
    apply nodup_keys_foldl_classify
    have hbase : (dict_keys [(Field.url, u)]).Nodup := by simp [dict_keys]
    cases soup.title with
    | none =>
      cases soup.like_count with
      | none => exact hbase
      | some lc => exact nodup_dict_keys_set _ _ _ hbase
    | some t =>
      cases soup.like_count with
      | none =>
        dsimp only
        split_ifs <;> first
          | exact hbase
          | exact nodup_dict_keys_set _ _ _ hbase
      | some lc =>
        dsimp only
        split_ifs <;> first
          | exact nodup_dict_keys_set _ _ _ hbase
          | exact nodup_dict_keys_set _ _ _ (nodup_dict_keys_set _ _ _ hbase)

/-- The listing loop body appends exactly the optional stub of the item. -/
theorem listing_step_eq (acc : List Dict) (item : ListingItem) :
    listing_step acc item = acc ++ (emit_item item).toList := by
  obtain ⟨link, nm, sp⟩ := item
  cases link <;> cases nm <;> simp [listing_step, emit_item]

/-- Folding the listing loop body is appending the filtered stub list. -/
theorem foldl_listing_step (items : List ListingItem) :
    ∀ init : List Dict,
      items.foldl listing_step init = init ++ items.filterMap emit_item := by
  induction items with
  | nil => intro init; simp
  | cons item rest ih =>
    intro init
    rw [List.foldl_cons, listing_step_eq, ih, List.filterMap_cons]
    cases emit_item item <;> simp

/-- The listing parser on a fetched page emits exactly the stubs of the
items having both a link and a name, in page order. -/
theorem extract_listing_eq_filterMap (doc : ListingDoc) :
    extract_doctor_links_from_listing (some doc) = doc.items.filterMap emit_item := by
  simp only [extract_doctor_links_from_listing]
  rw [foldl_listing_step]
  rfl

/-- Each `scrape_page` step appends exactly one record. -/
theorem scrape_step_length (df : String → Option DetailDoc) (a : List Dict) (doctor : Dict) :
    (scrape_step df a doctor).length = a.length + 1 := by
  simp [scrape_step]

/-- Folding the `scrape_page` step adds one record per stub. -/
theorem foldl_scrape_step_length (df : String → Option DetailDoc) (doctors : List Dict) :
    ∀ acc : List Dict,
      (doctors.foldl (scrape_step df) acc).length = acc.length + doctors.length := by
  induction doctors with
  | nil => intro acc; simp
  | cons doctor rest ih =>
    intro acc
    rw [List.foldl_cons, ih, scrape_step_length, List.length_cons]
    omega

/-- Unfolding lemma: a failed first attempt followed by at least one more
allowed attempt sleeps once and continues with the remaining attempts. -/
theorem get_page_cons_cons {α : Type} (a : Option α) (l : List (Option α)) :
    get_page (none :: a :: l)
      = ((get_page (a :: l)).1, (get_page (a :: l)).2.1 + 1, (get_page (a :: l)).2.2 + 1) := rfl

/-- Retry loop outcome when the first `k` attempts fail and the next attempt
succeeds: the document is returned after exactly `k + 1` attempts and `k`
backoff sleeps. -/
theorem get_page_succeeds {α : Type} (d : α) :
    ∀ (k : Nat) (rest : List (Option α)),
      get_page (List.replicate k none ++ some d :: rest) = (some d, k + 1, k) := by
  intro k
  induction k with
  | zero => intro rest; rfl
  | succ j ih =>
    intro rest
    have hne : List.replicate j (none : Option α) ++ some d :: rest ≠ [] := by simp
    obtain ⟨a, l, hal⟩ := List.exists_cons_of_ne_nil hne
    rw [List.replicate_succ, List.cons_append, hal, get_page_cons_cons, ← hal, ih]

/-- Retry loop outcome when every attempt fails: the explicit failure value
is returned after all `m` attempts, with a backoff sleep between consecutive
attempts and none after the final attempt. -/
theorem get_page_all_fail {α : Type} :
    ∀ m : Nat, 1 ≤ m →
      get_page (List.replicate m (none : Option α)) = (none, m, m - 1) := by
  intro m
  induction m with
  | zero => intro h; omega
  | succ j ih =>
    intro _
    cases Nat.eq_zero_or_pos j with
    | inl h0 => subst h0; rfl
    | inr hj =>
      have hne : List.replicate j (none : Option α) ≠ [] := by
        simp
        omega
      obtain ⟨a, l, hal⟩ := List.exists_cons_of_ne_nil hne
      rw [List.replicate_succ, hal, get_page_cons_cons, ← hal, ih hj]
      simp
      omega

/-- No task in the all-idle initial state holds the gate. -/
theorem holders_replicate_idle (k : Nat) :
    holders (List.replicate k TaskState.idle) = 0 := by
  induction k with
  | zero => rfl
  | succ j ih =>
    rw [List.replicate_succ]
    simp only [holders, List.countP_cons] at ih ⊢
    rw [ih]
    rfl

/-- Admitting an idle task raises the holder count by one. -/
theorem holders_set_holding (ts : List TaskState) :
    ∀ i : Nat, ts[i]? = some TaskState.idle →
      holders (ts.set i TaskState.holding) = holders ts + 1 := by
  induction ts with
  | nil => intro i hi; simp at hi
  | cons a rest ih =>
    intro i hi
    cases i with
    | zero =>
      simp at hi
      subst hi
      simp [holders, List.countP_cons, is_holding]
    | succ j =>
      simp at hi
      rw [List.set_cons_succ]
      simp only [holders, List.countP_cons] at ih ⊢
      rw [ih j hi]
      omega

/-- Releasing a holding task lowers the holder count by one. -/
theorem holders_set_released (ts : List TaskState) :
    ∀ i : Nat, ts[i]? = some TaskState.holding →
      holders (ts.set i TaskState.released) + 1 = holders ts := by
  induction ts with
  | nil => intro i hi; simp at hi
  | cons a rest ih =>
    intro i hi
    cases i with
    | zero =>
      simp at hi
      subst hi
      simp [holders, List.countP_cons, is_holding]
    | succ j =>
      simp at hi
      rw [List.set_cons_succ]
      simp only [holders, List.countP_cons] at ih ⊢
      rw [← ih j hi]
      omega

/-- Unfolding lemma: a python range that has not yet reached its stop. -/
theorem py_range_pos (stop step start : Nat) (hstep : 0 < step) (hlt : start < stop) :
    py_range stop step start = start :: py_range stop step (start + step) := by
  rw [py_range, dif_pos (⟨hstep, hlt⟩ : 0 < step ∧ start < stop)]

/-- Unfolding lemma: a python range past its stop is empty. -/
theorem py_range_stop (stop step start : Nat) (h : stop ≤ start) :
    py_range stop step start = [] := by
  rw [py_range, dif_neg]
  omega

/-- A batch is the contiguous run of `min batch_size remaining` pages. -/
theorem batch_pages_eq (e b s : Nat) (hb : 0 < b) :
    batch_pages e b s = List.range' s (min b (e + 1 - s)) := by
  unfold batch_pages
  congr 1
  omega

/-- Unfolding lemma: first batch followed by the batches of the rest. -/
theorem batches_cons (s e b : Nat) (hb : 0 < b) (hse : s ≤ e) :
    batches s e b = batch_pages e b s :: batches (s + b) e b := by
  unfold batches
  rw [py_range_pos _ _ _ hb (by omega)]
  rfl

/-- Unfolding lemma: no batches past the end page. -/
theorem batches_nil (s e b : Nat) (h : e < s) : batches s e b = [] := by
  unfold batches
  rw [py_range_stop _ _ _ (by omega)]
  rfl

/-- Concatenating all batches yields the pages of `[s, e]` in order. -/
theorem batches_flatten (b : Nat) (hb : 0 < b) :
    ∀ (n s e : Nat), e + 1 - s = n →
      (batches s e b).flatten = List.range' s (e + 1 - s) := by
  intro n
  induction n using Nat.strong_induction_on with
  | _ n ih =>
    intro s e hn
    by_cases hse : s ≤ e
    · rw [batches_cons s e b hb hse, List.flatten_cons, batch_pages_eq _ _ _ hb]
      by_cases hreach : s + b ≤ e
      · rw [ih (e + 1 - (s + b)) (by omega) (s + b) e rfl]
        have hmin : min b (e + 1 - s) = b := by omega
        have hlen : e + 1 - (s + b) = e + 1 - s - b := by omega
        rw [hmin, hlen, List.range'_append_1]
        congr 1
        omega
      · rw [batches_nil (s + b) e b (by omega)]
        simp only [List.flatten_nil, List.append_nil]
        congr 1
        omega
    · rw [batches_nil s e b (by omega)]
      have h0 : e + 1 - s = 0 := by omega
      rw [h0]
      rfl

/-- Every batch except possibly the last has exactly `batch_size` pages. -/
theorem batches_dropLast_length (b : Nat) (hb : 0 < b) :
    ∀ (n s e : Nat), e + 1 - s = n →
      ∀ batch ∈ (batches s e b).dropLast, batch.length = b := by
  intro n
  induction n using Nat.strong_induction_on with
  | _ n ih =>
    intro s e hn batch hmem
    by_cases hse : s ≤ e
    · rw [batches_cons s e b hb hse] at hmem
      by_cases hreach : s + b ≤ e
      · have hrest : batches (s + b) e b ≠ [] := by
          rw [batches_cons (s + b) e b hb (by omega)]
          simp
        rw [List.dropLast_cons_of_ne_nil hrest] at hmem
        rcases List.mem_cons.mp hmem with h1 | h1
        · subst h1
          rw [batch_pages_eq _ _ _ hb, List.length_range']
          omega
        · exact ih (e + 1 - (s + b)) (by omega) (s + b) e rfl batch h1
      · rw [batches_nil (s + b) e b (by omega)] at hmem
        simp at hmem
    · rw [batches_nil s e b (by omega)] at hmem
      simp at hmem

/-- Every batch is nonempty and no longer than `batch_size`. -/
theorem batches_mem_length (b : Nat) (hb : 0 < b) :
    ∀ (n s e : Nat), e + 1 - s = n →
      ∀ batch ∈ batches s e b, 0 < batch.length ∧ batch.length ≤ b := by
  intro n
  induction n using Nat.strong_induction_on with
  | _ n ih =>
    intro s e hn batch hmem
    by_cases hse : s ≤ e
    · rw [batches_cons s e b hb hse] at hmem
      rcases List.mem_cons.mp hmem with h1 | h1
      · subst h1
        rw [batch_pages_eq _ _ _ hb, List.length_range']
        omega
      · by_cases hreach : s + b ≤ e
        · exact ih (e + 1 - (s + b)) (by omega) (s + b) e rfl batch h1
        · rw [batches_nil (s + b) e b (by omega)] at h1
          simp at h1
    · rw [batches_nil s e b (by omega)] at hmem
      simp at hmem

/-- Folding the batch loop body produces the batch/pause event list. -/
theorem foldl_batch_events (e b : Nat) (starts : List Nat) :
    ∀ init : List OrchEvent,
      starts.foldl
        (fun tr batch_start =>
          tr ++ [OrchEvent.run_batch (batch_pages e b batch_start), OrchEvent.pause])
        init
        = init
          ++ (starts.map
              (fun batch_start =>
                [OrchEvent.run_batch (batch_pages e b batch_start), OrchEvent.pause])).flatten := by
  induction starts with
  | nil => intro init; simp
  | cons st rest ih =>
    intro init
    rw [List.foldl_cons, ih, List.map_cons, List.flatten_cons]
    simp

/-- C1: at no instant during a crawl run do more than `max_concurrent`
fetch operations hold the admission gate simultaneously: in every state
reachable from the all-idle initial state of any number of concurrently
scheduled `get_page` invocations (any batch size and any page range yields
some such number), under steps in which a task acquires the gate before any
network attempt (attempts are enabled only in the holding state), and
releases it when its retry loop ends, the number of simultaneous gate
holders never exceeds `max_concurrent`. -/
theorem semaphore_cap_invariant (max_concurrent k : Nat) (ts : List TaskState)
    (h : Relation.ReflTransGen (SemStep max_concurrent)
      (List.replicate k TaskState.idle) ts) :
    holders ts ≤ max_concurrent := by
  induction h with
  | refl =>
    rw [holders_replicate_idle]
    exact Nat.zero_le _
  | tail hsteps hstep ih =>
    cases hstep with
    | acquire i hi hgate =>
      rw [holders_set_holding _ i hi]
      omega
    | fetch_attempt i hi => exact ih
    | release i hi =>
      have h2 := holders_set_released _ i hi
      omega

/-- C1 witness: with `max_concurrent = 1` and two tasks, the state reached
by one acquire step satisfies the cap. -/
theorem semaphore_cap_invariant_witness :
    holders [TaskState.holding, TaskState.idle] ≤ 1 :=
  semaphore_cap_invariant 1 2 [TaskState.holding, TaskState.idle]
    (Relation.ReflTransGen.single
      (SemStep.acquire (List.replicate 2 TaskState.idle) 0 (by decide) (by decide)))

/-- C2: the retry loop of `get_page` over `max_retries` attempt outcomes
performs exactly `n` attempts when the first `n - 1` attempts fail and
attempt `n` succeeds (and `n ≤ max_retries` holds), returning the parsed
document, with one fixed backoff sleep after each non-final failed attempt;
when every attempt fails it performs all `max_retries` attempts, sleeps the
backoff only between consecutive failed attempts (`max_retries - 1` times,
never after the final attempt), and returns the explicit failure value:
the model is a total function, so no exception escapes this boundary. -/
theorem get_page_retry_contract {α : Type} (d : α) (n max_retries : Nat)
    (rest : List (Option α)) (h1 : 1 ≤ n)
    (hlen : (List.replicate (n - 1) (none : Option α) ++ some d :: rest).length
      = max_retries) :
    get_page (List.replicate (n - 1) (none : Option α) ++ some d :: rest)
      = (some d, n, n - 1)
  ∧ n ≤ max_retries
  ∧ (1 ≤ max_retries →
      get_page (List.replicate max_retries (none : Option α))
        = (none, max_retries, max_retries - 1)) := by
  refine ⟨?_, ?_, fun hm => get_page_all_fail max_retries hm⟩
  · have hn : n - 1 + 1 = n := by omega
    rw [get_page_succeeds d (n - 1) rest, hn]
  · simp only [List.length_append, List.length_replicate, List.length_cons] at hlen
    omega

/-- C2 witness: two attempt slots with the first failing and the second
succeeding yield the document after exactly 2 attempts and 1 sleep; two
failing attempts yield the failure value after 2 attempts and 1 sleep. -/
theorem get_page_retry_contract_witness :
    get_page [none, some 7] = (some 7, 2, 1)
  ∧ get_page (List.replicate 2 (none : Option Nat)) = (none, 2, 1) := by
  have h := get_page_retry_contract (7 : Nat) 2 2 [] (by omega) (by rfl)
  exact ⟨h.1, h.2.2 (by omega)⟩

/-- C3: the Detail Stage preserves identity: given a stub whose `'url'`
binding is `u`, the per-stub step of `scrape_page` fetches exactly `u` and
appends the merged record, `extract_doctor_details` always binds `'url'` to
`u` whether the fetch succeeds or fails, and the merged record built by
`doctor.update(details)` still binds `'url'` to `u` in both cases. -/
theorem detail_identity_url (stub : Dict) (u : String)
    (df : String → Option DetailDoc) (a : List Dict)
    (hstub : dict_lookup stub Field.url = some u) :
    scrape_step df a stub
      = a ++ [dict_update stub (extract_doctor_details u (df u))]
  ∧ (∀ f : Option DetailDoc,
      dict_lookup (extract_doctor_details u f) Field.url = some u)
  ∧ (∀ f : Option DetailDoc,
      dict_lookup (dict_update stub (extract_doctor_details u f)) Field.url = some u) := by
  refine ⟨?_, fun f => lookup_url_extract_doctor_details u f, fun f => ?_⟩
  · simp [scrape_step, hstub]
  · exact dict_lookup_update_of_some _ _ _ _
      (nodup_keys_extract_doctor_details u f)
      (lookup_url_extract_doctor_details u f)

/-- C3 witness: a concrete stub merged with a failed detail fetch keeps its
URL. -/
theorem detail_identity_url_witness :
    dict_lookup
        (dict_update [(Field.url, "u1")] (extract_doctor_details "u1" none))
        Field.url
      = some "u1" :=
  (detail_identity_url [(Field.url, "u1")] "u1" (fun _ => none) [] (by rfl)).2.2 none

/-- C4: the stub/detail merge is override-safe: a field bound in the detail
dict takes the detail value in the merged record; a field absent from the
detail dict keeps the stub's value; when the detail fetch failed the merged
record keeps every stub field other than `'url'` unchanged and binds
`'url'` to the stub's URL; and the accumulator grows by exactly one record
per stub regardless of detail-fetch success, so a failed detail fetch does
not change the run's total record count. -/
theorem merge_override_safe (stub : Dict) (u : String) (f : Option DetailDoc)
    (k : Field) (lf : Option ListingDoc) (df : String → Option DetailDoc)
    (acc : List Dict) :
    (∀ v, dict_lookup (extract_doctor_details u f) k = some v →
        dict_lookup (dict_update stub (extract_doctor_details u f)) k = some v)
  ∧ (dict_lookup (extract_doctor_details u f) k = none →
        dict_lookup (dict_update stub (extract_doctor_details u f)) k
          = dict_lookup stub k)
  ∧ (k ≠ Field.url →
        dict_lookup (dict_update stub (extract_doctor_details u none)) k
          = dict_lookup stub k)
  ∧ dict_lookup (dict_update stub (extract_doctor_details u none)) Field.url = some u
  ∧ (scrape_page lf df acc).length
      = acc.length + (extract_doctor_links_from_listing lf).length := by
  refine ⟨?_, ?_, ?_, ?_, ?_⟩
  · intro v hv
    exact dict_lookup_update_of_some _ _ _ _
      (nodup_keys_extract_doctor_details u f) hv
  · intro hnone
    exact dict_lookup_update_of_none _ _ _ hnone
  · intro hk
    apply dict_lookup_update_of_none
    simp [extract_doctor_details, dict_lookup, Ne.symm hk]
  · exact dict_lookup_update_of_some _ _ _ _
      (nodup_keys_extract_doctor_details u none)
      (lookup_url_extract_doctor_details u none)
  · simp only [scrape_page]
    rw [foldl_scrape_step_length]

/-- C4 witness: on a concrete stub, a failed detail fetch keeps the stub's
name and rebinds only the URL. -/
theorem merge_override_safe_witness :
    dict_lookup
        (dict_update [(Field.url, "s"), (Field.name, "N")]
          (extract_doctor_details "s" none))
        Field.name
      = dict_lookup [(Field.url, "s"), (Field.name, "N")] Field.name
  ∧ dict_lookup
        (dict_update [(Field.url, "s"), (Field.name, "N")]
          (extract_doctor_details "s" none))
        Field.url
      = some "s" := by
  have h := merge_override_safe [(Field.url, "s"), (Field.name, "N")] "s" none
    Field.name none (fun _ => none) []
  exact ⟨h.2.2.1 (by decide), h.2.2.2.1⟩

/-- C5: a failed listing fetch yields an empty stub sequence, and so does a
fetched page past the real data extent (no matching entries); in both cases
no exception is raised (the model is total) and the crawl continues: the
accumulator passes through `scrape_page` unchanged. -/
theorem listing_failure_yields_empty (doc : ListingDoc) (hpast : doc.items = [])
    (df : String → Option DetailDoc) (acc : List Dict) :
    extract_doctor_links_from_listing none = []
  ∧ extract_doctor_links_from_listing (some doc) = []
  ∧ scrape_page none df acc = acc
  ∧ scrape_page (some doc) df acc = acc := by
  have h2 : extract_doctor_links_from_listing (some doc) = [] := by
    rw [extract_listing_eq_filterMap, hpast]
    rfl
  refine ⟨rfl, h2, rfl, ?_⟩
  simp [scrape_page, h2]

/-- C5 witness: the empty listing document contributes nothing and leaves
the accumulator unchanged. -/
theorem listing_failure_yields_empty_witness :
    extract_doctor_links_from_listing (some ⟨[]⟩) = []
  ∧ scrape_page (some ⟨[]⟩) (fun _ => none) [] = [] := by
  have h := listing_failure_yields_empty ⟨[]⟩ rfl (fun _ => none) []
  exact ⟨h.2.1, h.2.2.2⟩

/-- C6: a `KeyboardInterrupt` during the run flushes the accumulator's
current contents to the interrupted destination without re-raising; an
unhandled fault flushes them to the error destination and then re-raises;
in both cases every already-collected record's row is in the written file,
so cancellation and faults never lose collected records. -/
theorem interruption_and_fault_flush (acc : List Dict) (hne : acc ≠ []) :
    (main_handler acc RunOutcome.keyboard_interrupt).1
      = some ("doctors_data_interrupted.csv",
          fieldnames.map field_name :: acc.map csv_row)
  ∧ (main_handler acc RunOutcome.keyboard_interrupt).2 = false
  ∧ (main_handler acc RunOutcome.fault).1
      = some ("doctors_data_error.csv",
          fieldnames.map field_name :: acc.map csv_row)
  ∧ (main_handler acc RunOutcome.fault).2 = true
  ∧ ∀ d ∈ acc, csv_row d ∈ fieldnames.map field_name :: acc.map csv_row := by
  have hsave : save_to_csv acc
      = some (fieldnames.map field_name :: acc.map csv_row) := by
    cases acc with
    | nil => exact absurd rfl hne
    | cons a rest => rfl
  refine ⟨?_, rfl, ?_, rfl, ?_⟩
  · simp [main_handler, hsave]
  · simp [main_handler, hsave]
  · intro d hd
    exact List.mem_cons_of_mem _ (List.mem_map_of_mem _ hd)

/-- C6 witness: a one-record accumulator is flushed to the interrupted
destination on cancellation and the fault path re-raises. -/
theorem interruption_and_fault_flush_witness :
    (main_handler [[(Field.url, "u")]] RunOutcome.keyboard_interrupt).1
      = some ("doctors_data_interrupted.csv",
          fieldnames.map field_name :: [[(Field.url, "u")]].map csv_row)
  ∧ (main_handler [[(Field.url, "u")]] RunOutcome.fault).2 = true := by
  have h := interruption_and_fault_flush [[(Field.url, "u")]] (by simp)
  exact ⟨h.1, h.2.2.2.1⟩

/-- C7: the batch loop of `scrape_all_doctors` partitions the inclusive
range of pages into consecutive batches of `batch_size` pages with only the
last batch possibly shorter (and none empty), covers every page index in
the range exactly once, and its event trace runs each batch to completion
(the gather joins all of its tasks) before the fixed one-second pause that
separates it from the next batch. -/
theorem orchestrator_batching (s e b : Nat) (hb : 0 < b) (_hse : s ≤ e) :
    (batches s e b).flatten = List.range' s (e + 1 - s)
  ∧ (batches s e b).flatten.Nodup
  ∧ (∀ batch ∈ (batches s e b).dropLast, batch.length = b)
  ∧ (∀ batch ∈ batches s e b, 0 < batch.length ∧ batch.length ≤ b)
  ∧ scrape_all_doctors s e b
      = ((batches s e b).map
          (fun pages => [OrchEvent.run_batch pages, OrchEvent.pause])).flatten := by
  refine ⟨batches_flatten b hb _ s e rfl, ?_, batches_dropLast_length b hb _ s e rfl,
    batches_mem_length b hb _ s e rfl, ?_⟩
  · rw [batches_flatten b hb _ s e rfl]
    exact List.nodup_range' _ _
  · simp only [scrape_all_doctors, batches]
    rw [foldl_batch_events]
    simp [List.map_map, Function.comp_def]

/-- C7 witness: pages 1..5 with batch size 2 cover the range exactly once
and all non-final batches have exactly 2 pages. -/
theorem orchestrator_batching_witness :
    (batches 1 5 2).flatten = List.range' 1 5
  ∧ ∀ batch ∈ (batches 1 5 2).dropLast, batch.length = 2 := by
  have h := orchestrator_batching 1 5 2 (by omega) (by omega)
  exact ⟨h.1, h.2.2.1⟩

/-- C8: the listing parser emits a stub exactly for the entries having both
a link and a name (an entry missing either is silently skipped), and every
emitted stub's URL keeps an `href` already starting with `"http"` verbatim
and otherwise prefixes the site's base URL. -/
theorem listing_emission_and_url (doc : ListingDoc) (item : ListingItem)
    (href nm : String) (hmem : item ∈ doc.items) (hl : item.link = some href)
    (hn : item.name = some nm) :
    extract_doctor_links_from_listing (some doc) = doc.items.filterMap emit_item
  ∧ mk_stub href nm item.specialty ∈ extract_doctor_links_from_listing (some doc)
  ∧ dict_lookup (mk_stub href nm item.specialty) Field.url
      = some (if href.startsWith "http" then href else base_url ++ href)
  ∧ ∀ it : ListingItem, it.link = none ∨ it.name = none → emit_item it = none := by
  refine ⟨extract_listing_eq_filterMap doc, ?_, ?_, ?_⟩
  · rw [extract_listing_eq_filterMap doc]
    exact List.mem_filterMap.mpr ⟨item, hmem, by simp [emit_item, hl, hn]⟩
  · simp [mk_stub, dict_lookup, resolve_url]
  · intro it hit
    obtain ⟨l, n2, sp⟩ := it
    rcases hit with h | h
    · dsimp only at h
      subst h
      cases n2 <;> rfl
    · dsimp only at h
      subst h
      cases l <;> rfl

/-- C8 witness: a relative `href` is resolved against the base URL and the
resulting stub is emitted for a single-item listing page. -/
theorem listing_emission_and_url_witness :
    dict_lookup (mk_stub "/doctor-detailed/1" "Dr. A" none) Field.url
      = some (if String.startsWith "/doctor-detailed/1" "http" then "/doctor-detailed/1"
          else base_url ++ "/doctor-detailed/1")
  ∧ mk_stub "/doctor-detailed/1" "Dr. A" none
      ∈ extract_doctor_links_from_listing
          (some ⟨[⟨some "/doctor-detailed/1", some "Dr. A", none⟩]⟩) := by
  have h := listing_emission_and_url ⟨[⟨some "/doctor-detailed/1", some "Dr. A", none⟩]⟩
    ⟨some "/doctor-detailed/1", some "Dr. A", none⟩ "/doctor-detailed/1" "Dr. A"
    (List.mem_singleton_self _) rfl rfl
  exact ⟨h.2.2.1, h.2.1⟩

/-- C9: in detail-page parsing a list item missing its icon or its text
node is skipped, not failed; for an item reaching the location (map-marker)
category, an anchor present makes `workplace` the anchor's text and
`workplace_url` the anchor's `href` (the empty string when the anchor has
no `href` attribute); with no anchor, `workplace` is the item's bare text
and no `workplace_url` binding is produced. -/
theorem detail_item_classification (d : Dict) (ic t : String)
    (hmk : map_marker_case ic = true) :
    (∀ li : DetailLi, li.icon = none ∨ li.span = none → classify_li d li = d)
  ∧ (∀ a : Anchor,
      dict_lookup (classify_li d ⟨some ic, some t, some a⟩) Field.workplace
          = some a.text.trim
      ∧ dict_lookup (classify_li d ⟨some ic, some t, some a⟩) Field.workplace_url
          = some (a.href.getD "")
      ∧ ∀ h : String, a.href = some h →
          dict_lookup (classify_li d ⟨some ic, some t, some a⟩) Field.workplace_url
            = some h)
  ∧ dict_lookup (classify_li d ⟨some ic, some t, none⟩) Field.workplace = some t.trim
  ∧ dict_lookup (classify_li d ⟨some ic, some t, none⟩) Field.workplace_url
      = dict_lookup d Field.workplace_url := by
  simp only [map_marker_case, Bool.and_eq_true, Bool.not_eq_true'] at hmk
  obtain ⟨⟨⟨⟨⟨h1, h2⟩, h3⟩, h4⟩, h5⟩, h6⟩ := hmk
  have hredA : ∀ a : Anchor, classify_li d ⟨some ic, some t, some a⟩
      = dict_set (dict_set d Field.workplace a.text.trim)
          Field.workplace_url (a.href.getD "") := by
    intro a
    simp [classify_li, h1, h2, h3, h4, h5, h6]
  have hredN : classify_li d ⟨some ic, some t, none⟩
      = dict_set d Field.workplace t.trim := by
    simp [classify_li, h1, h2, h3, h4, h5, h6]
  refine ⟨?_, ?_, ?_, ?_⟩
  · intro li hli
    obtain ⟨icon, span, anchor⟩ := li
    rcases hli with h | h
    · dsimp only at h
      subst h
      cases span <;> rfl
    · dsimp only at h
      subst h
      cases icon <;> rfl
  · intro a
    rw [hredA a]
    refine ⟨?_, dict_lookup_set_self _ _ _, fun h hh => ?_⟩
    · rw [dict_lookup_set_ne _ _ (by decide : Field.workplace ≠ Field.workplace_url)]
      exact dict_lookup_set_self _ _ _
    · rw [dict_lookup_set_self _ _ _]
      simp [hh]
  · rw [hredN]
    exact dict_lookup_set_self _ _ _
  · rw [hredN]
    exact dict_lookup_set_ne _ _ (by decide : Field.workplace_url ≠ Field.workplace)

/-- C9 witness: a concrete map-marker item with an anchor yields the
anchor's text as workplace and the anchor's `href` as workplace URL. -/
theorem detail_item_classification_witness :
    dict_lookup
        (classify_li []
          ⟨some "fa fa-map-marker", some "loc", some ⟨"Clinic", some "/c1"⟩⟩)
        Field.workplace
      = some ("Clinic").trim
  ∧ dict_lookup
        (classify_li []
          ⟨some "fa fa-map-marker", some "loc", some ⟨"Clinic", some "/c1"⟩⟩)
        Field.workplace_url
      = some "/c1" := by
  have h := detail_item_classification [] "fa fa-map-marker" "loc" (by decide)
  exact ⟨(h.2.1 ⟨"Clinic", some "/c1"⟩).1,
    (h.2.1 ⟨"Clinic", some "/c1"⟩).2.2 "/c1" rfl⟩

/-- C10: with an empty accumulator `save_to_csv` performs no write at all,
not even a header row (the `none` result models returning without creating
or truncating the destination file), while a nonempty accumulator writes the
header and one row per record; so an interruption (or fault, or normal end)
before any record is collected leaves no output file behind. -/
theorem save_to_csv_empty_no_write :
    save_to_csv [] = none
  ∧ (∀ d : Dict, ∀ rest : List Dict, save_to_csv (d :: rest)
      = some (fieldnames.map field_name :: (d :: rest).map csv_row))
  ∧ (main_handler [] RunOutcome.keyboard_interrupt).1 = none
  ∧ (main_handler [] RunOutcome.fault).1 = none
  ∧ (main_handler [] RunOutcome.normal).1 = none :=
  ⟨rfl, fun _ _ => rfl, rfl, rfl, rfl⟩

end TibbiPortal
